import Mathlib

/-!
Verification of the terraform-commits-analyzer pipeline: a shallow embedding
of the commit classifier, monthly aggregator, usage predictor and the
cross-repository aggregation, with theorems checking the specification.
Dates are modelled as rational timestamps measured in days; Python floats
are modelled by exact rationals; a Python exception is modelled by
Option/Except.
-/

/-- Model of the Python string method endswith: true when the second string
is a trailing segment of the first. -/
def endswith (s suf : String) : Bool :=
  suf.data.isSuffixOf s.data

/-- Model of Python round-half-to-even (banker rounding) on an exact value. -/
def pyRound (q : ℚ) : ℤ :=
  let f := ⌊q⌋
  let r := q - (f : ℚ)
  if r < 1/2 then f
  else if 1/2 < r then f + 1
  else if f % 2 = 0 then f else f + 1

/-- Model of Python round(x, 2): round to two decimal digits. -/
def pyRound2 (q : ℚ) : ℚ :=
  (pyRound (q * 100) : ℚ) / 100

/- From src/src/analyzers/terraform.py: the fixed extension set. -/
def terraform_extensions : List String := [".tf", ".tfvars", ".tfvars.json"]

/-- TerraformAnalyzer.is_terraform_file: suffix match against the set. -/
def is_terraform_file (filename : String) : Bool :=
  terraform_extensions.any (fun ext => endswith filename ext)

/-- Model of the Python substring test a in b on character lists. -/
def containsSub (pat : List Char) : List Char → Bool
  | [] => pat.isEmpty
  | c :: rest => pat.isPrefixOf (c :: rest) || containsSub pat rest

/-- TerraformAnalyzer.is_skip_ci: the lowercased message contains the
control marker as a substring. -/
def is_skip_ci (message : String) : Bool :=
  containsSub "[skip ci]".data (message.data.map Char.toLower)

/-- Normalized commit record (date, message, changed files, branch). -/
structure CommitRecord where
  date : ℚ
  message : String
  files : List String
  branch : String
deriving DecidableEq

/-- The record kept for a qualifying commit: only the infra files are
retained (the body of the loop in TerraformAnalyzer.analyze_repository). -/
structure FilteredCommit where
  date : ℚ
  files : List String
  message : String
  branch : String
deriving DecidableEq

/-- One iteration of the loop in TerraformAnalyzer.analyze_repository:
skip when the message carries the marker, keep only infra files,
skip when none remain. -/
def classify (c : CommitRecord) : Option FilteredCommit :=
  if is_skip_ci c.message then none
  else
    let tf := c.files.filter is_terraform_file
    if tf = [] then none
    else some ⟨c.date, tf, c.message, c.branch⟩

/-- Result of analyzing one repository. -/
structure TerraformResult where
  total_commits : ℕ
  commits : List FilteredCommit
deriving DecidableEq

/-- TerraformAnalyzer.analyze_repository on an already-fetched commit list. -/
def analyze_repository (commits : List CommitRecord) : TerraformResult :=
  let kept := commits.filterMap classify
  ⟨kept.length, kept⟩

/- From src/src/analyzers/usage_predictor.py. -/

/-- Confidence label. -/
inductive Confidence where
  | low
  | medium
  | high
deriving DecidableEq

/-- Ordinary-least-squares slope of counts against index, the coefficient
computed by LinearRegression.fit in UsagePredictor.predict_usage; on a
single point the fitted coefficient is zero. -/
def olsSlope (l : List ℤ) : ℚ :=
  let n := l.length
  if n ≤ 1 then 0
  else
    let xs : List ℚ := (List.range n).map (fun i => (i : ℚ))
    let ys : List ℚ := l.map (fun y => (y : ℚ))
    let sx := xs.sum
    let sy := ys.sum
    let sxy := ((xs.zip ys).map (fun p => p.1 * p.2)).sum
    let sxx := (xs.map (fun x => x ^ 2)).sum
    ((n : ℚ) * sxy - sx * sy) / ((n : ℚ) * sxx - sx ^ 2)

/-- np.var: mean squared deviation from the mean (denominator n). -/
def npVar (l : List ℤ) : ℚ :=
  if l.length = 0 then 0
  else
    let n : ℚ := l.length
    let m : ℚ := (l.map (fun y => (y : ℚ))).sum / n
    ((l.map (fun y => ((y : ℚ) - m) ^ 2)).sum) / n

/-- UsagePredictor._calculate_confidence. -/
def calculateConfidence (variance : ℚ) (data_points : ℕ) : Confidence :=
  if data_points < 3 then .low
  else
    let normalized_variance := variance / ((data_points : ℚ) ^ 2)
    if normalized_variance < 1/10 then .high
    else if normalized_variance < 3/10 then .medium
    else .low

/-- The record returned by UsagePredictor.predict_usage (the factors
dictionary inlined). -/
structure UsagePrediction where
  monthly : ℤ
  annual : ℤ
  confidence : Confidence
  historical_trend : ℚ
  growth_rate : ℚ
  variance : ℚ
deriving DecidableEq

/-- The all-zero, low-confidence record returned on empty input. -/
def emptyPrediction : UsagePrediction :=
  ⟨0, 0, .low, 0, 0, 0⟩

/-- UsagePredictor.predict_usage with the given growth rate and
months_ahead. -/
def predict_usage (growthRate : ℚ) (monthsAhead : ℤ) (monthlyData : List ℤ) :
    UsagePrediction :=
  if h : monthlyData = [] then emptyPrediction
  else
    let historicalTrend := olsSlope monthlyData
    let variance := npVar monthlyData
    let lastMonth : ℚ := (monthlyData.getLast h : ℤ)
    let basePrediction := lastMonth * (1 + growthRate)
    let trendAdjustment := historicalTrend * (monthsAhead : ℚ)
    let confidence := calculateConfidence variance monthlyData.length
    let finalPrediction := max 0 (basePrediction + trendAdjustment)
    ⟨pyRound finalPrediction, pyRound (finalPrediction * 12), confidence,
     pyRound2 historicalTrend, growthRate, pyRound2 variance⟩

/-- The unclamped-then-clamped monthly value before rounding, exposed for
reasoning about the rounded fields. -/
def finalPrediction (growthRate : ℚ) (monthsAhead : ℤ) (monthlyData : List ℤ) : ℚ :=
  if h : monthlyData = [] then 0
  else
    max 0 ((monthlyData.getLast h : ℤ) * (1 + growthRate) +
      olsSlope monthlyData * (monthsAhead : ℚ))

/-- The confidence rule as the specification words it: low under three
points, else compare the variance of the series divided by the square of
the point count against the two thresholds. -/
def confidence_spec (md : List ℤ) : Confidence :=
  if md.length < 3 then .low
  else
    let normalizedVariance := npVar md / ((md.length : ℚ) ^ 2)
    if normalizedVariance < 1/10 then .high
    else if 1/10 ≤ normalizedVariance ∧ normalizedVariance < 3/10 then .medium
    else .low

/- From src/tests/test_analysis.py: cross-repository aggregation. -/

/-- Per-repository statistics record fed to aggregate_statistics. -/
structure RepoStat where
  name : String
  total_commits : ℕ
  monthly_data : List ℤ
deriving DecidableEq

/-- The dictionary returned by aggregate_statistics; the repository-count
keys are absent (none) on the early-return paths. -/
structure AggregateResult where
  total_commits : ℕ
  monthly_data : List ℤ
  predictions : UsagePrediction
  active_repos : Option ℕ
  total_repos : Option ℕ
deriving DecidableEq

/-- The inner loop for i, count in enumerate(monthly): acc[i] += count;
an out-of-range index raises IndexError, modelled as none. -/
def addSeries : List ℤ → List ℤ → Option (List ℤ)
  | acc, [] => some acc
  | [], _ :: _ => none
  | a :: acc, c :: cs => (addSeries acc cs).map (fun r => (a + c) :: r)

/-- aggregate_statistics from src/tests/test_analysis.py: filters out
repositories with zero commits, sums the remaining monthly series into a
vector sized by the first active repository, and predicts on the sum. -/
def aggregate_statistics (repo_stats : List RepoStat) : Except String AggregateResult :=
  if repo_stats = [] then
    .ok ⟨0, [], emptyPrediction, none, none⟩
  else
    let active := repo_stats.filter (fun s => 0 < s.total_commits)
    if h : active = [] then
      .ok ⟨0, [], emptyPrediction, none, none⟩
    else
      let monthly_length := (active.head h).monthly_data.length
      match (active.map (fun s => s.monthly_data)).foldlM addSeries
          (List.replicate monthly_length 0) with
      | none => .error "IndexError"
      | some monthly_data =>
        .ok ⟨(active.map (fun s => s.total_commits)).sum, monthly_data,
             predict_usage (1/10) 1 monthly_data,
             some active.length, some repo_stats.length⟩

/-- The summary value sum(monthly_data)/len(monthly_data) printed and put
in the report; a ZeroDivisionError on an empty series is modelled as
none. -/
def summaryAverageMonthly (agg : AggregateResult) : Option ℚ :=
  if agg.monthly_data.length = 0 then none
  else some (((agg.monthly_data.map (fun n => (n : ℚ))).sum) / agg.monthly_data.length)

/- The per-repository loop of test_github_provider: a repository whose
clone fails yields no statistics record at all (analyze_repository
returns None and nothing is appended to repo_stats). -/

/-- repo_stats collected by the loop: the clone failures drop out. -/
def collectStats (outcomes : List (Option RepoStat)) : List RepoStat :=
  outcomes.filterMap id

/-- Number of repositories whose clone failed. -/
def failedRepoCount (outcomes : List (Option RepoStat)) : ℕ :=
  (outcomes.filter (fun o => o.isNone)).length

/-- Count of collected repositories with at least one commit (the
active list in the per-repository breakdown). -/
def activeRepoCount (outcomes : List (Option RepoStat)) : ℕ :=
  ((collectStats outcomes).filter (fun s => 0 < s.total_commits)).length

/-- Count of collected repositories with zero commits (the inactive
list in the per-repository breakdown). -/
def inactiveRepoCount (outcomes : List (Option RepoStat)) : ℕ :=
  ((collectStats outcomes).filter (fun s => ¬ 0 < s.total_commits)).length

/-- The total_repositories field of the emitted report. -/
def reportedTotalRepos (outcomes : List (Option RepoStat)) : Option ℕ :=
  match aggregate_statistics (collectStats outcomes) with
  | .ok agg => agg.total_repos
  | .error _ => none

/-- The total_commits field of the emitted report (zero when the run
crashes before emission). -/
def reportedTotalCommits (outcomes : List (Option RepoStat)) : ℕ :=
  match aggregate_statistics (collectStats outcomes) with
  | .ok agg => agg.total_commits
  | .error _ => 0

/- From src/src/main.py: the monthly breakdown over twelve fixed-width
thirty-day buckets. -/

/-- The window condition month_start <= date < month_end for bucket
number month. -/
def inBucket (startDate : ℚ) (month : ℕ) (d : ℚ) : Bool :=
  decide (startDate + 30 * month ≤ d) && decide (d < startDate + 30 * month + 30)

/-- create_monthly_breakdown: for each of the twelve buckets, the number
of commits of any repository whose date lies in the bucket. -/
def create_monthly_breakdown (startDate : ℚ)
    (allReposData : List (List FilteredCommit)) : List ℕ :=
  (List.range 12).map (fun month =>
    (allReposData.map (fun commits =>
      (commits.filter (fun c => inBucket startDate month c.date)).length)).sum)

/- From src/analyze_terraform_commits.py: the script-level per-repository
analysis and the main loop. -/

/-- analyze_repository of the script: when a branch is given, a failing
history fetch is caught and the repository yields zero commits; without a
branch the fetch is not guarded. The fetch outcome is passed in as an
Except value. -/
def analyze_repository_script (branch : Option String)
    (fetch : Except String (List CommitRecord)) : Except String TerraformResult :=
  match branch with
  | some _ =>
    match fetch with
    | .error _ => .ok ⟨0, []⟩
    | .ok commits => .ok (analyze_repository commits)
  | none =>
    match fetch with
    | .error e => .error e
    | .ok commits => .ok (analyze_repository commits)

/-- The loop over repositories in main: no exception handling, so the
first uncaught error aborts the whole run. -/
def run_analysis (branch : Option String)
    (fetches : List (Except String (List CommitRecord))) :
    Except String (List TerraformResult) :=
  fetches.mapM (analyze_repository_script branch)

/- From src/src/providers/github.py. -/

/-- A git pathspec of the shape star-dot-extension matches a path exactly
when the path ends with that extension. -/
def matchesGitPathspec (path : String) : Bool :=
  endswith path ".tf" || endswith path ".tfvars"

/-- git log with the pathspec list of GitHubProvider.get_commits lists a
commit exactly when one of its changed files matches a pathspec. -/
def nativeFilterKeeps (files : List String) : Bool :=
  files.any matchesGitPathspec

/-- Python str.replace on character lists: replace every occurrence of
pat (assumed nonempty) by repl, scanning left to right. -/
def replaceAll (pat repl : List Char) : List Char → List Char
  | [] => []
  | c :: rest =>
    if pat.isPrefixOf (c :: rest) then
      repl ++ replaceAll pat repl (rest.drop (pat.length - 1))
    else
      c :: replaceAll pat repl rest
  termination_by l => l.length
  decreasing_by
    · simp only [List.length_drop, List.length_cons]
      omega
    · simp

/-- GitHubProvider.clone_repository: the URL handed to the clone
operation; for a private repository the token is spliced after the
scheme, otherwise the URL is used as is. -/
def cloneUrlUsed (token clone_url : String) (isPrivate : Bool) : String :=
  if isPrivate then
    ⟨replaceAll "https://".data ("https://".data ++ token.data ++ "@".data) clone_url.data⟩
  else clone_url

/-! ## Helper lemmas -/

theorem isPrefixOf_true_iff (l1 l2 : List Char) : l1.isPrefixOf l2 = true ↔ l1 <+: l2 :=
  List.isPrefixOf_iff_prefix

theorem containsSub_append (pat u v : List Char) :
    containsSub pat (u ++ pat ++ v) = true := by
  induction u with
  | nil =>
    simp only [List.nil_append]
    cases hp : pat ++ v with
    | nil =>
      have hpe : pat = [] := by
        cases pat with
        | nil => rfl
        | cons a l => simp at hp
      subst hpe
      decide
    | cons c rest =>
      rw [containsSub]
      have hpre : pat <+: c :: rest := hp ▸ List.prefix_append pat v
      rw [isPrefixOf_true_iff .. |>.mpr hpre]
      simp
  | cons c u ih =>
    simp only [List.cons_append]
    rw [containsSub, ih]
    simp

theorem replaceAll_head_match (pat repl rest : List Char) (hne : pat ≠ []) :
    replaceAll pat repl (pat ++ rest) = repl ++ replaceAll pat repl rest := by
  match pat, hne with
  | p :: pt, _ =>
    show replaceAll (p :: pt) repl (p :: (pt ++ rest)) = _
    rw [replaceAll]
    have hpre : (p :: pt).isPrefixOf (p :: (pt ++ rest)) = true :=
      isPrefixOf_true_iff .. |>.mpr ⟨rest, by simp⟩
    rw [if_pos hpre]
    congr 1
    have : (p :: pt).length - 1 = pt.length := by simp
    rw [this, List.drop_left]

theorem pyRound_close (q : ℚ) : |(pyRound q : ℚ) - q| ≤ 1/2 := by
  have h0 : (⌊q⌋ : ℚ) ≤ q := Int.floor_le q
  have h1 : q < ⌊q⌋ + 1 := Int.lt_floor_add_one q
  unfold pyRound
  by_cases hlt : q - (⌊q⌋ : ℚ) < 1/2
  · rw [if_pos hlt]
    rw [abs_le]
    constructor <;> linarith
  · rw [if_neg hlt]
    by_cases hgt : 1/2 < q - (⌊q⌋ : ℚ)
    · rw [if_pos hgt, abs_le]
      push_cast
      constructor <;> linarith
    · have heq : q - (⌊q⌋ : ℚ) = 1/2 := le_antisymm (not_lt.mp hgt) (not_lt.mp hlt)
      rw [if_neg hgt]
      by_cases hpar : ⌊q⌋ % 2 = 0
      · rw [if_pos hpar, abs_le]
        constructor <;> linarith
      · rw [if_neg hpar, abs_le]
        push_cast
        constructor <;> linarith

/-! ## C6 -/

/-- C6: the native path restriction of the local-clone source covers only
`.tf` and `.tfvars`; a commit whose only changed file ends in
`.tfvars.json` is dropped by the git log pathspec even though the
classifier of the repository counts such a file as an infra file. -/
theorem native_filter_drops_tfvars_json :
    nativeFilterKeeps ["vars.tfvars.json"] = false
    ∧ is_terraform_file "vars.tfvars.json" = true := by
  exact ⟨by decide, by decide⟩

/-! ## C10 -/

/-- C10: for a private repository, clone_repository splices the bearer
token into the HTTPS clone URL (the token is a substring of the URL
handed to the clone call); for a public repository the URL is unmodified. -/
theorem private_clone_url_embeds_token (token url : String)
    (hp : "https://".data.isPrefixOf url.data = true) :
    containsSub token.data (cloneUrlUsed token url true).data = true
    ∧ cloneUrlUsed token url false = url := by
  constructor
  · obtain ⟨rest, hrest⟩ := isPrefixOf_true_iff .. |>.mp hp
    show containsSub token.data
      (replaceAll "https://".data ("https://".data ++ token.data ++ "@".data) url.data) = true
    rw [← hrest, replaceAll_head_match _ _ _ (by decide)]
    have hassoc :
        ("https://".data ++ token.data ++ "@".data) ++
            replaceAll "https://".data ("https://".data ++ token.data ++ "@".data) rest =
          "https://".data ++ (token.data ++
            ("@".data ++
              replaceAll "https://".data ("https://".data ++ token.data ++ "@".data) rest)) := by
      simp [List.append_assoc]
    rw [hassoc]
    have := containsSub_append token.data "https://".data
      ("@".data ++ replaceAll "https://".data ("https://".data ++ token.data ++ "@".data) rest)
    simpa [List.append_assoc] using this
  · rfl

/-- Witness for C10 at a concrete token and clone URL. -/
theorem private_clone_url_embeds_token_witness :
    ("https://".data.isPrefixOf "https://github.com/scalr/infra.git".data = true)
    ∧ containsSub "tok123".data
        (cloneUrlUsed "tok123" "https://github.com/scalr/infra.git" true).data = true :=
  ⟨by decide,
   (private_clone_url_embeds_token "tok123" "https://github.com/scalr/infra.git" (by decide)).1⟩

/-! ## C8 -/

/-- C8: classify returns none when the message contains the control
marker in any letter case, regardless of files; otherwise it retains
exactly the changed files ending in an infra suffix, returning none when
that retained list is empty; a commit touching readme.md and main.tf
keeps only main.tf, and main.tf.bak is not retained. -/
theorem classify_marker_and_infra_retention :
    (∀ (c : CommitRecord) (s : List Char), s.map Char.toLower = "[skip ci]".data →
      (∃ u v, c.message.data = u ++ s ++ v) → classify c = none)
    ∧ (∀ c : CommitRecord, classify c = none ↔
        is_skip_ci c.message = true ∨ c.files.filter is_terraform_file = [])
    ∧ (∀ (c : CommitRecord) (fc : FilteredCommit), classify c = some fc →
        fc.files = c.files.filter is_terraform_file)
    ∧ classify ⟨0, "touch [SKIP CI] files", ["main.tf"], "main"⟩ = none
    ∧ classify ⟨0, "update", ["readme.md", "main.tf"], "main"⟩ =
        some ⟨0, ["main.tf"], "update", "main"⟩
    ∧ classify ⟨0, "update", ["main.tf.bak"], "main"⟩ = none := by
  refine ⟨?_, ?_, ?_, by decide, by decide, by decide⟩
  · rintro c s hs ⟨u, v, huv⟩
    have hskip : is_skip_ci c.message = true := by
      unfold is_skip_ci
      rw [huv]
      simp only [List.map_append, hs]
      exact containsSub_append _ _ _
    simp [classify, hskip]
  · intro c
    unfold classify
    by_cases hskip : is_skip_ci c.message
    · simp [hskip]
    · simp only [hskip, if_false, Bool.false_eq_true, false_or]
      by_cases hemp : c.files.filter is_terraform_file = []
      · simp [hemp, hskip]
      · simp [hemp, hskip]
  · intro c fc hfc
    unfold classify at hfc
    by_cases hskip : is_skip_ci c.message
    · simp [hskip] at hfc
    · simp only [hskip, if_false] at hfc
      by_cases hemp : c.files.filter is_terraform_file = []
      · simp [hemp] at hfc
      · simp only [hemp, if_false] at hfc
        cases hfc
        rfl

/-- Witness for C8: a concrete commit carrying the upper-case marker is
classified as none via the general statement. -/
theorem classify_marker_witness :
    ("[SKIP CI]".data.map Char.toLower = "[skip ci]".data)
    ∧ classify ⟨0, "x [SKIP CI] y", ["main.tf"], "m"⟩ = none :=
  ⟨by decide,
   classify_marker_and_infra_retention.1 ⟨0, "x [SKIP CI] y", ["main.tf"], "m"⟩
     "[SKIP CI]".data (by decide) ⟨"x ".data, " y".data, by decide⟩⟩

/-! ## C9 -/

/-- C9: the confidence label is low for fewer than three points, and for
three or more points it is determined by the variance of the series
normalized by the square of the point count against the 0.1 and 0.3
thresholds, exactly as the specification words it; a near-constant series
of three points gets high and a strongly swinging one gets low. -/
theorem confidence_label_matches_spec :
    (∀ (g : ℚ) (ma : ℤ) (md : List ℤ),
      (predict_usage g ma md).confidence = confidence_spec md)
    ∧ (predict_usage (1/10) 1 [5, 5, 5]).confidence = Confidence.high
    ∧ (predict_usage (1/10) 1 [0, 10, 0]).confidence = Confidence.low := by
  have hmain : ∀ (g : ℚ) (ma : ℤ) (md : List ℤ),
      (predict_usage g ma md).confidence = confidence_spec md := by
    intro g ma md
    by_cases h : md = []
    · subst h
      simp [predict_usage, emptyPrediction, confidence_spec]
    · have hcode : (predict_usage g ma md).confidence =
          calculateConfidence (npVar md) md.length := by
        simp [predict_usage, h]
      rw [hcode]
      unfold calculateConfidence confidence_spec
      dsimp only
      split_ifs with h1 h2 h3 h4 <;> try rfl
      all_goals simp_all [not_lt]
  refine ⟨hmain, ?_, ?_⟩
  · rw [hmain]
    norm_num [confidence_spec, npVar]
  · rw [hmain]
    norm_num [confidence_spec, npVar]

/-! ## C3 -/

theorem predict_usage_monthly_eq (g : ℚ) (ma : ℤ) (md : List ℤ) :
    (predict_usage g ma md).monthly = pyRound (finalPrediction g ma md)
    ∧ (predict_usage g ma md).annual = pyRound (finalPrediction g ma md * 12) := by
  by_cases h : md = []
  · subst h
    constructor
    · show (0 : ℤ) = pyRound 0
      simp [pyRound, finalPrediction]
    · show (0 : ℤ) = pyRound (0 * 12)
      simp [pyRound, finalPrediction]
  · constructor <;> simp [predict_usage, finalPrediction, h]

/-- C3 counterexample: on the series [1] with the default growth rate the
unrounded prediction is 1.1, so the reported monthly count is 1 while the
annualized count is round(13.2) = 13, which is not 12 times the monthly
count. -/
theorem annual_not_twelve_times_monthly_cex :
    (predict_usage (1/10) 1 [1]).monthly = 1
    ∧ (predict_usage (1/10) 1 [1]).annual = 13
    ∧ (predict_usage (1/10) 1 [1]).annual ≠ 12 * (predict_usage (1/10) 1 [1]).monthly := by
  have h : predict_usage (1/10) 1 [1] = ⟨1, 13, .low, 0, 1/10, 0⟩ := by
    norm_num [predict_usage, olsSlope, npVar, calculateConfidence, pyRound,
      pyRound2, emptyPrediction]
  rw [h]
  refine ⟨rfl, rfl, by decide⟩

/-- C3 amended: the annualized count is the rounding of twelve times the
unrounded monthly prediction, not twelve times the rounded monthly count;
the two rounded fields always satisfy |annual - 12 * monthly| <= 6. -/
theorem annual_close_to_twelve_monthly (g : ℚ) (ma : ℤ) (md : List ℤ) :
    (predict_usage g ma md).annual = pyRound (finalPrediction g ma md * 12)
    ∧ |(predict_usage g ma md).annual - 12 * (predict_usage g ma md).monthly| ≤ 6 := by
  obtain ⟨hm, ha⟩ := predict_usage_monthly_eq g ma md
  refine ⟨ha, ?_⟩
  set p := finalPrediction g ma md with hp
  rw [hm, ha]
  have h1 : |(pyRound (p * 12) : ℚ) - p * 12| ≤ 1/2 := pyRound_close (p * 12)
  have h2 : |(pyRound p : ℚ) - p| ≤ 1/2 := pyRound_close p
  have h3 : |(pyRound (p * 12) : ℚ) - 12 * (pyRound p : ℚ)| ≤ 13/2 := by
    have htri := abs_sub_le ((pyRound (p * 12) : ℚ)) (p * 12) (12 * (pyRound p : ℚ))
    have h12 : |p * 12 - 12 * (pyRound p : ℚ)| = 12 * |(pyRound p : ℚ) - p| := by
      rw [← abs_neg]
      rw [show -(p * 12 - 12 * (pyRound p : ℚ)) = 12 * ((pyRound p : ℚ) - p) by ring]
      rw [abs_mul]
      norm_num
    calc |(pyRound (p * 12) : ℚ) - 12 * (pyRound p : ℚ)|
        ≤ |(pyRound (p * 12) : ℚ) - p * 12| + |p * 12 - 12 * (pyRound p : ℚ)| := htri
      _ = |(pyRound (p * 12) : ℚ) - p * 12| + 12 * |(pyRound p : ℚ) - p| := by rw [h12]
      _ ≤ 1/2 + 12 * (1/2) := by
          have := mul_le_mul_of_nonneg_left h2 (by norm_num : (0:ℚ) ≤ 12)
          linarith
      _ = 13/2 := by norm_num
  have h4 : ((|pyRound (p * 12) - 12 * pyRound p| : ℤ) : ℚ) ≤ 13/2 := by
    push_cast
    exact h3
  have h5 : |pyRound (p * 12) - 12 * pyRound p| ≤ ⌊(13:ℚ)/2⌋ := Int.le_floor.mpr h4
  have h6 : ⌊(13:ℚ)/2⌋ = 6 := by norm_num [Int.floor_eq_iff]
  rw [h6] at h5
  exact h5

/-! ## C7 -/

/-- C7: the breakdown has twelve fixed-width thirty-day buckets starting
at the window start; a commit date belongs to at most one bucket, to
exactly one when it lies in the 360-day window and to none otherwise; on
an empty commit list the result is twelve zeros. -/
theorem monthly_buckets_cover_window (startDate d : ℚ)
    (repos : List (List FilteredCommit)) :
    (create_monthly_breakdown startDate repos).length = 12
    ∧ (∀ i j : ℕ, inBucket startDate i d = true → inBucket startDate j d = true → i = j)
    ∧ ((startDate ≤ d ∧ d < startDate + 360) → ∃ i, i < 12 ∧ inBucket startDate i d = true)
    ∧ (¬ (startDate ≤ d ∧ d < startDate + 360) → ∀ i, i < 12 → inBucket startDate i d = false)
    ∧ create_monthly_breakdown startDate [[]] = List.replicate 12 0 := by
  refine ⟨?_, ?_, ?_, ?_, ?_⟩
  · simp [create_monthly_breakdown]
  · intro i j hi hj
    simp only [inBucket, Bool.and_eq_true, decide_eq_true_eq] at hi hj
    obtain ⟨hi1, hi2⟩ := hi
    obtain ⟨hj1, hj2⟩ := hj
    have hij : (i : ℚ) < (j : ℚ) + 1 := by nlinarith
    have hji : (j : ℚ) < (i : ℚ) + 1 := by nlinarith
    have hij' : i < j + 1 := by exact_mod_cast hij
    have hji' : j < i + 1 := by exact_mod_cast hji
    omega
  · rintro ⟨hlo, hhi⟩
    have h30 : (0:ℚ) < 30 := by norm_num
    set t := d - startDate with ht
    have ht0 : 0 ≤ t := by simp [ht]; linarith
    have ht1 : t < 360 := by simp [ht]; linarith
    have hk0 : 0 ≤ ⌊t / 30⌋ := Int.floor_nonneg.mpr (by positivity)
    refine ⟨⌊t / 30⌋.toNat, ?_, ?_⟩
    · have hlt : t / 30 < 12 := by
        rw [div_lt_iff₀ h30]
        linarith
      have h12 : ⌊t / 30⌋ < (12 : ℤ) := Int.floor_lt.mpr (by exact_mod_cast hlt)
      omega
    · have hcast : ((⌊t / 30⌋.toNat : ℕ) : ℚ) = (⌊t / 30⌋ : ℚ) := by
        exact_mod_cast congrArg Int.cast (Int.toNat_of_nonneg hk0)
      simp only [inBucket, Bool.and_eq_true, decide_eq_true_eq]
      constructor
      · have hfl : (⌊t / 30⌋ : ℚ) ≤ t / 30 := Int.floor_le _
        have hmul : (⌊t / 30⌋ : ℚ) * 30 ≤ t := (le_div_iff₀ h30).mp hfl
        rw [hcast]
        linarith
      · have hfl : t / 30 < (⌊t / 30⌋ : ℚ) + 1 := Int.lt_floor_add_one _
        have hmul : t < ((⌊t / 30⌋ : ℚ) + 1) * 30 := (div_lt_iff₀ h30).mp hfl
        rw [hcast]
        linarith
  · intro hout i _ 
    by_contra hb
    rw [Bool.not_eq_false] at hb
    simp only [inBucket, Bool.and_eq_true, decide_eq_true_eq] at hb
    obtain ⟨hb1, hb2⟩ := hb
    apply hout
    constructor
    · have : (0:ℚ) ≤ 30 * i := by positivity
      linarith
    · have hle : (i : ℚ) ≤ 11 := by
        have : i ≤ 11 := by omega
        exact_mod_cast this
      nlinarith
  · rfl

/-- Witness for C7: the date 35 falls in the 360-day window starting at 0
and lands in some bucket. -/
theorem monthly_buckets_cover_window_witness :
    ((0:ℚ) ≤ 35 ∧ (35:ℚ) < 0 + 360)
    ∧ (∃ i, i < 12 ∧ inBucket 0 i 35 = true)
    ∧ (create_monthly_breakdown 0 [[]]).length = 12 :=
  ⟨by norm_num,
   (monthly_buckets_cover_window 0 35 [[]]).2.2.1 (by norm_num),
   (monthly_buckets_cover_window 0 35 [[]]).1⟩

/-! ## Aggregation lemmas -/

theorem zipWith_add_replicate_zero (l : List ℤ) :
    List.zipWith (· + ·) l (List.replicate l.length 0) = l := by
  induction l with
  | nil => rfl
  | cons a t ih => simp [List.replicate, ih]

theorem zipWith_replicate_zero_add (l : List ℤ) :
    List.zipWith (· + ·) (List.replicate l.length 0) l = l := by
  induction l with
  | nil => rfl
  | cons a t ih => simp [List.replicate, ih]

theorem addSeries_eq_of_le :
    ∀ (s acc : List ℤ), s.length ≤ acc.length →
      addSeries acc s =
        some (List.zipWith (· + ·) acc (s ++ List.replicate (acc.length - s.length) 0))
  | [], acc, _ => by
    simpa [addSeries] using (zipWith_add_replicate_zero acc).symm
  | c :: cs, [], h => by simp at h
  | c :: cs, a :: as, h => by
    have hlen : cs.length ≤ as.length := by simpa using h
    rw [addSeries, addSeries_eq_of_le cs as hlen]
    simp

theorem addSeries_length :
    ∀ (s acc r : List ℤ), addSeries acc s = some r → r.length = acc.length
  | [], acc, r, h => by
    simp [addSeries] at h
    subst h
    rfl
  | c :: cs, [], r, h => by simp [addSeries] at h
  | c :: cs, a :: as, r, h => by
    rw [addSeries] at h
    cases hrec : addSeries as cs with
    | none => rw [hrec] at h; simp at h
    | some r0 =>
      rw [hrec] at h
      simp at h
      subst h
      simp [addSeries_length cs as r0 hrec]

theorem foldlM_addSeries (series : List (List ℤ)) :
    ∀ acc : List ℤ, (∀ s ∈ series, s.length ≤ acc.length) →
      ∃ r, series.foldlM addSeries acc = some r ∧ r.length = acc.length := by
  induction series with
  | nil => intro acc _; exact ⟨acc, rfl, rfl⟩
  | cons s ss ih =>
    intro acc hall
    have hs : s.length ≤ acc.length := hall s (by simp)
    have hstep := addSeries_eq_of_le s acc hs
    have hlen1 : (List.zipWith (· + ·) acc
        (s ++ List.replicate (acc.length - s.length) 0)).length = acc.length :=
      addSeries_length s acc _ hstep
    obtain ⟨r, hr, hrlen⟩ := ih (List.zipWith (· + ·) acc
        (s ++ List.replicate (acc.length - s.length) 0))
      (by intro x hx; rw [hlen1]; exact hall x (by simp [hx]))
    refine ⟨r, ?_, by rw [hrlen, hlen1]⟩
    rw [List.foldlM_cons, hstep]
    simpa using hr

theorem length_filter_pos_add_not (l : List RepoStat) :
    (l.filter (fun s => 0 < s.total_commits)).length
      + (l.filter (fun s => ¬ 0 < s.total_commits)).length = l.length := by
  induction l with
  | nil => rfl
  | cons s t ih =>
    by_cases h : 0 < s.total_commits
    · simp only [List.filter_cons]
      simp [h, ← ih]
      omega
    · simp only [List.filter_cons]
      simp [h, ← ih]
      omega

theorem sum_total_filter (l : List RepoStat) :
    ((l.filter (fun s => 0 < s.total_commits)).map (fun s => s.total_commits)).sum
      = (l.map (fun s => s.total_commits)).sum := by
  induction l with
  | nil => rfl
  | cons s t ih =>
    by_cases h : 0 < s.total_commits
    · simp [List.filter_cons, h, ih]
    · have hz : s.total_commits = 0 := by omega
      simp [List.filter_cons, h, ih, hz]

theorem aggregate_ok_of_same_length (stats : List RepoStat) (L : ℕ)
    (hsame : ∀ s ∈ stats, s.monthly_data.length = L)
    (hact : stats.filter (fun s => 0 < s.total_commits) ≠ []) :
    ∃ r : List ℤ, r.length = L ∧
      aggregate_statistics stats =
        .ok ⟨((stats.filter (fun s => 0 < s.total_commits)).map
                (fun s => s.total_commits)).sum,
             r, predict_usage (1/10) 1 r,
             some (stats.filter (fun s => 0 < s.total_commits)).length,
             some stats.length⟩ := by
  have hstats : stats ≠ [] := by
    intro h
    subst h
    simp at hact
  have hheadmem : (stats.filter (fun s => 0 < s.total_commits)).head hact ∈
      stats.filter (fun s => 0 < s.total_commits) := List.head_mem hact
  have hheadL : ((stats.filter (fun s => 0 < s.total_commits)).head hact).monthly_data.length
      = L := hsame _ (List.mem_filter.mp hheadmem).1
  have hall : ∀ s ∈ (stats.filter (fun s => 0 < s.total_commits)).map
      (fun s => s.monthly_data), s.length ≤ (List.replicate L (0:ℤ)).length := by
    intro x hx
    obtain ⟨st, hst, rfl⟩ := List.mem_map.mp hx
    rw [List.length_replicate, hsame st (List.mem_filter.mp hst).1]
  obtain ⟨r, hfold, hrlen⟩ := foldlM_addSeries _ (List.replicate L 0) hall
  refine ⟨r, by simpa using hrlen, ?_⟩
  unfold aggregate_statistics
  rw [if_neg hstats, dif_neg hact, hheadL]
  simp only [hfold]

/-! ## C1 -/

/-- C1 counterexample: with the shorter series [10,20] listed first, the
cross-repository sum writes past the end of the accumulator and raises
IndexError instead of returning [11,22,3]. -/
theorem aggregate_sum_order_cex :
    aggregate_statistics [⟨"repoA", 2, [10, 20]⟩, ⟨"repoB", 3, [1, 2, 3]⟩]
      = .error "IndexError" := rfl

/-- C1 amended: the element-wise sum is sized by the first active series;
series no longer than the first are zero-padded at the end, so [1,2,3]
first and [10,20] second yields [11,22,3], but a longer series appearing
after the first raises IndexError (previous theorem). -/
theorem aggregate_sum_zero_pads (a b : List ℤ) (na nb : ℕ)
    (ha : 0 < na) (hb : 0 < nb) (hlen : b.length ≤ a.length) :
    aggregate_statistics [⟨"repoA", na, a⟩, ⟨"repoB", nb, b⟩] =
      .ok ⟨na + nb,
           List.zipWith (· + ·) a (b ++ List.replicate (a.length - b.length) 0),
           predict_usage (1/10) 1
             (List.zipWith (· + ·) a (b ++ List.replicate (a.length - b.length) 0)),
           some 2, some 2⟩ := by
  have hne : ([⟨"repoA", na, a⟩, ⟨"repoB", nb, b⟩] : List RepoStat) ≠ [] := by simp
  have hfil : ([⟨"repoA", na, a⟩, ⟨"repoB", nb, b⟩] : List RepoStat).filter
      (fun s => 0 < s.total_commits) = [⟨"repoA", na, a⟩, ⟨"repoB", nb, b⟩] := by
    simp [List.filter_cons, ha, hb]
  have hstep1 : addSeries (List.replicate a.length 0) a = some a := by
    have h := addSeries_eq_of_le a (List.replicate a.length 0) (by simp)
    simpa [zipWith_replicate_zero_add] using h
  have hstep2 := addSeries_eq_of_le b a hlen
  unfold aggregate_statistics
  rw [if_neg hne]
  simp only [hfil]
  rw [dif_neg (by simp : ¬([⟨"repoA", na, a⟩, ⟨"repoB", nb, b⟩] : List RepoStat) = [])]
  simp [hstep1, hstep2]

/-- Witness for C1: the concrete unequal-length pair with the longer
series first sums to [11,22,3]. -/
theorem aggregate_sum_zero_pads_witness :
    (0 < 3 ∧ 0 < 2 ∧ ([10, 20] : List ℤ).length ≤ ([1, 2, 3] : List ℤ).length)
    ∧ aggregate_statistics [⟨"repoA", 3, [1, 2, 3]⟩, ⟨"repoB", 2, [10, 20]⟩] =
        .ok ⟨5, [11, 22, 3], predict_usage (1/10) 1 [11, 22, 3], some 2, some 2⟩ :=
  ⟨⟨by decide, by decide, by decide⟩,
   aggregate_sum_zero_pads [1, 2, 3] [10, 20] 3 2 (by decide) (by decide) (by decide)⟩

/-! ## C2 -/

/-- C2: when every repository is inactive, aggregate_statistics returns
the default dictionary in which the repository-count keys are absent
(total_repos is none, the lookup raises KeyError) and the monthly series
is empty, so the summary average sum/len raises ZeroDivisionError
(modelled as none): the run does not complete with a report, against the
claim. -/
theorem all_inactive_report_crash :
    aggregate_statistics [⟨"r1", 0, [0, 0, 0]⟩]
      = .ok ⟨0, [], emptyPrediction, none, none⟩
    ∧ summaryAverageMonthly ⟨0, [], emptyPrediction, none, none⟩ = none
    ∧ (⟨0, [], emptyPrediction, none, none⟩ : AggregateResult).total_repos = none :=
  ⟨rfl, rfl, rfl⟩

/-! ## C5 -/

/-- C5 counterexample: one failed clone plus one active repository; the
reported total repository count is 1, not active + inactive + failed = 2:
a failed repository is missing from every total. -/
theorem failed_repo_missing_from_totals_cex :
    reportedTotalRepos [none, some ⟨"a", 1, [1]⟩] = some 1
    ∧ activeRepoCount [none, some ⟨"a", 1, [1]⟩] = 1
    ∧ inactiveRepoCount [none, some ⟨"a", 1, [1]⟩] = 0
    ∧ failedRepoCount [none, some ⟨"a", 1, [1]⟩] = 1
    ∧ (1 : ℕ) ≠ 1 + 0 + 1 :=
  ⟨rfl, rfl, rfl, rfl, by decide⟩

/-- C5 amended: the reported total counts only repositories whose clone
succeeded (total = active + inactive), total commits is the sum over the
collected repositories, and a failed repository is invisible: it leaves
the collected statistics unchanged while incrementing the failed count —
thereby contributing zero to every total. -/
theorem totals_exclude_failed_repos (outcomes : List (Option RepoStat)) (L : ℕ)
    (hsame : ∀ s ∈ collectStats outcomes, s.monthly_data.length = L)
    (hactive : (collectStats outcomes).any (fun s => 0 < s.total_commits) = true) :
    reportedTotalRepos outcomes
      = some (activeRepoCount outcomes + inactiveRepoCount outcomes)
    ∧ reportedTotalCommits outcomes
      = ((collectStats outcomes).map (fun s => s.total_commits)).sum
    ∧ collectStats (none :: outcomes) = collectStats outcomes
    ∧ failedRepoCount (none :: outcomes) = failedRepoCount outcomes + 1 := by
  have hact : (collectStats outcomes).filter (fun s => 0 < s.total_commits) ≠ [] := by
    obtain ⟨s, hs, hp⟩ := List.any_eq_true.mp hactive
    intro hnil
    have : s ∈ (collectStats outcomes).filter (fun s => 0 < s.total_commits) :=
      List.mem_filter.mpr ⟨hs, hp⟩
    rw [hnil] at this
    simp at this
  obtain ⟨r, hrlen, hagg⟩ := aggregate_ok_of_same_length (collectStats outcomes) L hsame hact
  refine ⟨?_, ?_, by simp [collectStats], ?_⟩
  · unfold reportedTotalRepos
    rw [hagg]
    show some (collectStats outcomes).length = _
    rw [activeRepoCount, inactiveRepoCount, length_filter_pos_add_not]
  · unfold reportedTotalCommits
    rw [hagg]
    exact sum_total_filter _
  · simp [failedRepoCount, List.filter_cons]

/-- Witness for C5 at a run with one active, one failed and one inactive
repository. -/
theorem totals_exclude_failed_repos_witness :
    (∀ s ∈ collectStats [some ⟨"a", 2, [1, 1]⟩, none, some ⟨"b", 0, [0, 0]⟩],
        s.monthly_data.length = 2)
    ∧ (collectStats [some ⟨"a", 2, [1, 1]⟩, none, some ⟨"b", 0, [0, 0]⟩]).any
        (fun s => 0 < s.total_commits) = true
    ∧ reportedTotalRepos [some ⟨"a", 2, [1, 1]⟩, none, some ⟨"b", 0, [0, 0]⟩]
        = some (activeRepoCount [some ⟨"a", 2, [1, 1]⟩, none, some ⟨"b", 0, [0, 0]⟩]
            + inactiveRepoCount [some ⟨"a", 2, [1, 1]⟩, none, some ⟨"b", 0, [0, 0]⟩]) :=
  ⟨by decide, by decide,
   (totals_exclude_failed_repos [some ⟨"a", 2, [1, 1]⟩, none, some ⟨"b", 0, [0, 0]⟩] 2
     (by decide) (by decide)).1⟩

/-! ## C4 -/

/-- C4 counterexample: with no branch restriction, a failing history
fetch is not caught; the run aborts with the error instead of recording
a zero-commit repository and continuing. -/
theorem unbranched_fetch_error_aborts_cex :
    run_analysis none [.ok [], .error "branch not found", .ok []]
      = .error "branch not found" := rfl

/-- C4 amended: only when a branch restriction is supplied is a failing
fetch caught; every failing repository then contributes a zero-commit
result and the loop continues across the whole repository list. -/
theorem branch_fetch_error_recovered (b : String)
    (fetches : List (Except String (List CommitRecord))) :
    run_analysis (some b) fetches =
      .ok (fetches.map (fun f =>
        match f with
        | .error _ => ⟨0, []⟩
        | .ok commits => analyze_repository commits)) := by
  induction fetches with
  | nil => rfl
  | cons f fs ih =>
    rw [run_analysis] at ih ⊢
    rw [List.mapM_cons, ih]
    cases f with
    | error e => rfl
    | ok commits => rfl
